import Mathlib

/- Shallow embedding of the multi-indexer torrent search and ranking engine of
bobarr (packages/api/src/modules/jackett/jackett.service.ts), together with
theorems settling the frozen claims about it. Pure fragments of the source are
translated to Lean functions; the network fetch and the fan-out executor are
inputs to the embedded functions. -/

/-- JS truthiness of an optional string field: undefined and the empty string
are falsy, every other string is truthy. -/
def jsStrTruthy : Option String → Bool
  | none => false
  | some s => s != ""

/-- JS toLowerCase as used on rule names, modelled character-wise; agrees with
the JS function on ASCII names. Defined by structural recursion over the
character list so that it evaluates inside the kernel. -/
def jsToLower (s : String) : String :=
  String.mk (s.toList.map Char.toLower)

/-- A raw hit as returned by the Jackett backend for one query against one
indexer (the JackettResult shape used by the source). A missing Link or
MagnetUri is modelled as none. -/
structure JackettResult where
  Guid : String
  Title : String
  Size : Int
  Seeders : Int
  Peers : Int
  Link : Option String
  MagnetUri : Option String
  TrackerId : String
  PublishDate : String
deriving Repr, DecidableEq

/-- A configured quality rule. The source field named match is called
matchList here because match is a Lean keyword. -/
structure Quality where
  name : String
  matchList : List String
  score : Int
deriving Repr, DecidableEq

/-- A configured tag rule. -/
structure Tag where
  name : String
  score : Int
deriving Repr, DecidableEq

/-- A resolved quality or tag: label plus score. -/
structure ScoredLabel where
  label : String
  score : Int
deriving Repr, DecidableEq

/-- parseTag from the source (lines 325-337): the first preferred tag whose
lowercased name occurs as an exact token of the normalized title. JS find
returns the found token itself, whose truthiness is tested, hence jsStrTruthy.
When no rule matches, the score is 0 for a non-empty rule set and 1 for an
empty one. -/
def parseTag (normalizedTitle : List String) (preferredTags : List Tag) : ScoredLabel :=
  let tagMatch := preferredTags.find? (fun tag =>
    jsStrTruthy (normalizedTitle.find? (fun part => part == jsToLower tag.name)))
  let unknownScore : Int := if preferredTags.length > 0 then 0 else 1
  match tagMatch with
  | some t => { label := t.name, score := t.score }
  | none => { label := "unknown", score := unknownScore }

/-- parseQuality from the source (lines 339-349): the first quality rule one of
whose keywords, lowercased, occurs as an exact token. -/
def parseQuality (normalizedTitle : List String) (qualityParams : List Quality) : ScoredLabel :=
  let qualityMatch := qualityParams.find? (fun quality =>
    quality.matchList.any (fun keyword =>
      jsStrTruthy (normalizedTitle.find? (fun part => part == jsToLower keyword))))
  match qualityMatch with
  | some q => { label := q.name, score := q.score }
  | none => { label := "unknown", score := 0 }

/-- Modelled from the spec: sanitize (src/utils/sanitize) is not among the
provided sources. Spec 4.1 normalize: lowercases, strips punctuation and
diacritics per a fixed rule set, splits on whitespace into non-empty tokens.
We model the character-level part as: lowercase every character and replace
every character that is neither a lowercase ASCII letter nor a digit by a
space. -/
def sanitize (title : String) : String :=
  String.mk (title.toList.map (fun c =>
    let lc := c.toLower
    if (decide ('a' ≤ lc) && decide (lc ≤ 'z')) || (decide ('0' ≤ lc) && decide (lc ≤ '9'))
    then lc else ' '))

/-- JS whitespace class backslash-s. -/
def jsWhitespace (c : Char) : Bool :=
  c == '\t' || c == '\n' || c == '\x0b' || c == '\x0c' || c == '\r' || c == ' ' ||
  c == '\u00A0' || c == '\u1680' ||
  (decide ('\u2000' ≤ c) && decide (c ≤ '\u200A')) ||
  c == '\u2028' || c == '\u2029' || c == '\u202F' || c == '\u205F' ||
  c == '\u3000' || c == '\uFEFF'

/-- JS split on the single space character: n consecutive spaces produce n
plus one fields. Structural recursion so that it evaluates in the kernel. -/
def splitSpaceAux : List Char → List Char → List String
  | [], acc => [String.mk acc.reverse]
  | c :: cs, acc =>
    if c == ' ' then String.mk acc.reverse :: splitSpaceAux cs []
    else splitSpaceAux cs (c :: acc)

/-- JS string split on a space. -/
def jsSplitSpace (s : String) : List String :=
  splitSpaceAux s.toList []

/-- JS trim: strip whitespace from both ends. -/
def jsTrim (s : String) : String :=
  String.mk (((s.toList.dropWhile jsWhitespace).reverse.dropWhile jsWhitespace).reverse)

/-- The token split of formatSearchResult (source lines 302-304): split the
normalized title on spaces and keep only tokens that are truthy and have a
truthy trim. -/
def splitParts (normalizedTitle : String) : List String :=
  (jsSplitSpace normalizedTitle).filter
    (fun str => str != "" && jsTrim str != "")

/-- A candidate after normalization, the record built by formatSearchResult. -/
structure SearchResult where
  normalizedTitle : String
  normalizedTitleParts : List String
  id : String
  indexer : String
  title : String
  quality : ScoredLabel
  size : Int
  seeders : Int
  peers : Int
  link : String
  downloadLink : String
  tag : ScoredLabel
  publishDate : String
deriving Repr, DecidableEq

/-- formatSearchResult from the source (lines 292-323). The download link is
the JS expression MagnetUri or-else Link, under JS truthiness. -/
def formatSearchResult (qualityParams : List Quality) (preferredTags : List Tag)
    (result : JackettResult) : SearchResult :=
  let normalizedTitle := sanitize result.Title
  let normalizedTitleParts := splitParts normalizedTitle
  { normalizedTitle := normalizedTitle
    normalizedTitleParts := normalizedTitleParts
    id := result.Guid
    indexer := result.TrackerId
    title := result.Title
    quality := parseQuality normalizedTitleParts qualityParams
    size := result.Size
    seeders := result.Seeders
    peers := result.Peers
    link := result.Guid
    downloadLink :=
      if jsStrTruthy result.MagnetUri then result.MagnetUri.getD ""
      else result.Link.getD ""
    tag := parseTag normalizedTitleParts preferredTags
    publishDate := result.PublishDate }

/-- JS digit class backslash-d, that is the characters 0 to 9. -/
def isDigitChar (c : Char) : Bool :=
  decide ('0' ≤ c) && decide (c ≤ '9')

/-- Whether the pattern list is an initial segment of the character list. -/
def startsWithChars : List Char → List Char → Bool
  | [], _ => true
  | _ :: _, [] => false
  | p :: ps, c :: cs => p == c && startsWithChars ps cs

/-- One alternative of the episode-indicator regex, in source order, matches at
the head of the character list. -/
def episodeAltAt (cs : List Char) : Bool :=
  (match cs with
   | 'e' :: d :: _ => isDigitChar d
   | _ => false)
  || startsWithChars ['e', 'p', 'i', 's', 'o', 'd', 'e'] cs
  || (startsWithChars ['e', 'p', 'i', 's', 'o', 'd', 'e'] cs &&
      (match cs.drop 7 with | d :: _ => isDigitChar d | _ => false))
  || startsWithChars ['e', 'p'] cs
  || (startsWithChars ['e', 'p'] cs &&
      (match cs.drop 2 with | d :: _ => isDigitChar d | _ => false))

/-- Unanchored matching: some suffix of the list satisfies the head matcher. -/
def anySuffix (f : List Char → Bool) : List Char → Bool
  | [] => f []
  | c :: cs => f (c :: cs) || anySuffix f cs

/-- Non-null JS match of the episode-indicator regex against a token
(source line 274, first regex). -/
def matchesEpisodeIndicator (s : String) : Bool :=
  anySuffix episodeAltAt s.toList

/-- Maximal munch of one-or-more digits; returns the remainder on success. -/
def munchDigits : List Char → Option (List Char)
  | c :: cs => if isDigitChar c then some (cs.dropWhile isDigitChar) else none
  | [] => none

/-- The sub-pattern e p-optional digits-plus at the head of the list, returning
the remainder. When the character after e is p, skipping the optional p would
require p to be a digit, so taking it is the only branch that can succeed and
the match is deterministic. -/
def munchEPNum : List Char → Option (List Char)
  | 'e' :: 'p' :: cs => munchDigits cs
  | 'e' :: cs => munchDigits cs
  | _ => none

/-- The double-episode regex (source line 274, second regex) matches at the
head of the list. Digits, whitespace and the letter e are pairwise disjoint
character classes, so greedy matching of digits-plus and whitespace-star is
complete and no backtracking is needed. -/
def doubleEpisodeAt (cs : List Char) : Bool :=
  match munchEPNum cs with
  | some rest => (munchEPNum (rest.dropWhile jsWhitespace)).isSome
  | none => false

/-- Non-null JS match of the double-episode regex against the whole normalized
title. -/
def matchesDoubleEpisode (s : String) : Bool :=
  anySuffix doubleEpisodeAt s.toList

/-- The acceptance filter applied to each formatted result in searchIndexer
(source lines 268-285). maxSize of none models the JS default Infinity. -/
def resultFilter (withoutFilter isSeason : Bool) (maxSize : Option Int)
    (result : SearchResult) : Bool :=
  if withoutFilter then true
  else
    let hasAcceptableSize :=
      match maxSize with
      | some m => decide (result.size < m)
      | none => true
    let hasSeeders := decide (result.seeders ≥ 0) && decide (result.seeders > result.peers)
    let hasTag := decide (result.tag.score > 0)
    let isEpisode := result.normalizedTitleParts.any (fun titlePart =>
      matchesEpisodeIndicator titlePart &&
        !(matchesDoubleEpisode result.normalizedTitle))
    if isSeason then hasAcceptableSize && hasSeeders && !isEpisode
    else hasAcceptableSize && hasSeeders && hasTag

/-- lodash uniqBy with key Guid (source line 263): keep the first occurrence of
each Guid, drop later duplicates. -/
def uniqByGuid : List JackettResult → List JackettResult :=
  go []
where
  /-- seen accumulates the Guids already emitted. -/
  go (seen : List String) : List JackettResult → List JackettResult
    | [] => []
    | r :: rs =>
      if r.Guid ∈ seen then go seen rs
      else r :: go (r.Guid :: seen) rs

/-- The result pipeline of searchIndexer (source lines 263-289) as a function
of the per-query raw response lists; the network fetch is external and a
failed query contributes the empty list. Deduplicate by Guid, drop hits with
neither a truthy Link nor a truthy MagnetUri, format, then filter. -/
def searchIndexerResults (rawResults : List (List JackettResult))
    (qualityParams : List Quality) (preferredTags : List Tag)
    (maxSize : Option Int) (isSeason withoutFilter : Bool) : List SearchResult :=
  (((uniqByGuid rawResults.flatten).filter
      (fun result => jsStrTruthy result.Link || jsStrTruthy result.MagnetUri)).map
    (formatSearchResult qualityParams preferredTags)).filter
    (resultFilter withoutFilter isSeason maxSize)

/-- The sort key of lodash orderBy in search (source lines 196-200): the
4-tuple of indexer identity, tag score, quality score and seeder count, under
the lexicographic order. Lean compares strings by code point, which agrees
with the JS comparison used by lodash on strings without surrogate pairs. -/
def rankKey (r : SearchResult) : String ×ₗ Int ×ₗ Int ×ₗ Int :=
  toLex (r.indexer, toLex (r.tag.score, toLex (r.quality.score, r.seeders)))

/-- The descending ranking relation: a precedes b when the key of a is
greater-or-equal. All four orderBy directions are desc, so this is the
lexicographic order reversed. -/
def rankGE (a b : SearchResult) : Prop :=
  rankKey b ≤ rankKey a

/-- Executable strict comparison of character lists, mirroring the list order
used by the string order. -/
def charListLtb : List Char → List Char → Bool
  | [], [] => false
  | [], _ :: _ => true
  | _ :: _, [] => false
  | a :: as, b :: bs =>
    if a < b then true else if b < a then false else charListLtb as bs

/-- Executable strict string comparison by code point. -/
def strLtb (a b : String) : Bool :=
  charListLtb a.toList b.toList

/-- Executable form of the descending ranking relation. -/
def rankGEb (a b : SearchResult) : Bool :=
  strLtb b.indexer a.indexer ||
  (b.indexer == a.indexer &&
    (decide (b.tag.score < a.tag.score) ||
     (b.tag.score == a.tag.score &&
       (decide (b.quality.score < a.quality.score) ||
        (b.quality.score == a.quality.score && decide (b.seeders ≤ a.seeders))))))

theorem charListLtb_iff : ∀ as bs : List Char, charListLtb as bs = true ↔ as < bs
  | [], [] => by
    simp only [charListLtb, Bool.false_eq_true, false_iff]
    exact List.Lex.not_nil_right _ _
  | [], _ :: _ => by
    simp only [charListLtb, true_iff]
    exact List.Lex.nil
  | _ :: _, [] => by
    simp only [charListLtb, Bool.false_eq_true, false_iff]
    exact List.Lex.not_nil_right _ _
  | a :: as, b :: bs => by
    simp only [charListLtb]
    split
    · simp only [true_iff]
      exact List.Lex.rel (by assumption)
    · rename_i hab
      split
      · rename_i hba
        simp only [Bool.false_eq_true, false_iff]
        intro h
        cases h with
        | rel h1 => exact hab h1
        | cons h2 => exact absurd hba (lt_irrefl _)
      · rename_i hba
        have heq : a = b := le_antisymm (le_of_not_lt hba) (le_of_not_lt hab)
        subst heq
        rw [charListLtb_iff as bs]
        constructor
        · exact fun h => List.Lex.cons h
        · intro h
          cases h with
          | rel h1 => exact absurd h1 hab
          | cons h2 => exact h2

theorem strLtb_iff (a b : String) : strLtb a b = true ↔ a < b := by
  rw [strLtb, charListLtb_iff, String.lt_iff_toList_lt]

theorem rankGEb_iff (a b : SearchResult) : rankGEb a b = true ↔ rankGE a b := by
  rw [rankGE, rankKey, rankKey, Prod.Lex.le_iff, Prod.Lex.le_iff, Prod.Lex.le_iff]
  simp only [rankGEb, Bool.or_eq_true, Bool.and_eq_true, beq_iff_eq, decide_eq_true_eq,
    strLtb_iff]

instance : DecidableRel rankGE :=
  fun a b => decidable_of_iff (rankGEb a b = true) (rankGEb_iff a b)

instance : IsTotal SearchResult rankGE :=
  ⟨fun a b => le_total (rankKey b) (rankKey a)⟩

instance : IsTrans SearchResult rankGE :=
  ⟨fun _ _ _ hab hbc => le_trans hbc hab⟩

/-- The sort of search (source lines 196-200). lodash orderBy is a stable
sort, and a stable sort by a total preorder is uniquely determined, so
insertion sort models it exactly. -/
def sortedByBest (l : List SearchResult) : List SearchResult :=
  List.insertionSort rankGE l

/-- An error value as thrown by a rejected promise. -/
structure JSErr where
  message : String
deriving Repr, DecidableEq

/-- Modelled from the spec: PromiseRaceAll (src/utils/promise-resolve) is not
among the provided sources. Spec 4.3: the executor resolves with the
successful per-indexer results obtained by the deadline, slots still
unresolved at the deadline being undefined, hence Option; if every task fails
it raises an aggregate failure carrying the per-task errors, modelled as a
first error plus the rest. A non-array exception thrown elsewhere in the try
block is plainFailure. -/
inductive FanoutOutcome where
  | resolved (items : List (Option (List SearchResult)))
  | aggregateFailure (first : JSErr) (rest : List JSErr)
  | plainFailure (e : JSErr)

/-- The flatten step of search (source lines 192-194): drop undefined slots,
keep result lists (an empty array is truthy in JS), and concatenate. -/
def flattenResolved (resolvedIndexers : List (Option (List SearchResult))) : List SearchResult :=
  (resolvedIndexers.filterMap id).flatten

/-- The selection step of search (source lines 196-202): sort all collected
candidates descending and return the whole list in manual mode, or the
singleton holding the first element otherwise. Indexing an empty JS array
yields undefined, modelled as none, so the automated branch is the one-element
list around head?. -/
def searchSelect (withoutFilter : Bool)
    (resolvedIndexers : List (Option (List SearchResult))) : List (Option SearchResult) :=
  let sorted := sortedByBest (flattenResolved resolvedIndexers)
  if withoutFilter then sorted.map some else [sorted.head?]

/-- search with its catch clause (source lines 181-216), as a function of the
fan-out outcome: an aggregate failure whose first error message is NO_RESULTS
resolves to the empty list, any other aggregate failure propagates its first
error, and a plain exception is rethrown. -/
def searchModel (withoutFilter : Bool) (outcome : FanoutOutcome) :
    Except JSErr (List (Option SearchResult)) :=
  match outcome with
  | .resolved items => .ok (searchSelect withoutFilter items)
  | .aggregateFailure first _ =>
    if first.message == "NO_RESULTS" then .ok [] else .error first
  | .plainFailure e => .error e

/-- The Cyrillic side of the toLatin table (source line 358), in source
order. -/
def cyrillicChars : List Char :=
  ['А', 'Б', 'В', 'Г', 'Д', 'Ђ', 'Е', 'Ё', 'Ж', 'З', 'И', 'Й', 'Ј', 'К', 'Л',
   'Љ', 'М', 'Н', 'Њ', 'О', 'П', 'Р', 'С', 'Т', 'Ћ', 'У', 'Ф', 'Х', 'Ц', 'Ч',
   'Џ', 'Ш', 'Щ', 'Ъ', 'Ы', 'Ь', 'Э', 'Ю', 'Я',
   'а', 'б', 'в', 'г', 'д', 'ђ', 'е', 'ё', 'ж', 'з', 'и', 'й', 'ј', 'к', 'л',
   'љ', 'м', 'н', 'њ', 'о', 'п', 'р', 'с', 'т', 'ћ', 'у', 'ф', 'х', 'ц', 'ч',
   'џ', 'ш', 'щ', 'ъ', 'ы', 'ь', 'э', 'ю', 'я']

/-- The Latin side of the toLatin table (source line 359), in source order;
some entries are two characters long. The hard and soft signs map to the
modifier letters U+02BA and U+02B9. -/
def latinStrings : List String :=
  ["A", "B", "V", "G", "D", "Đ", "E", "Ë", "Ž", "Z", "I", "J", "J", "K", "L",
   "Lj", "M", "N", "Nj", "O", "P", "R", "S", "T", "Ć", "U", "F", "H", "C", "Č",
   "Dž", "Š", "Ŝ", "ʺ", "Y", "ʹ", "È", "Û", "Â",
   "a", "b", "v", "g", "d", "đ", "e", "ë", "ž", "z", "i", "j", "j", "k", "l",
   "lj", "m", "n", "nj", "o", "p", "r", "s", "t", "ć", "u", "f", "h", "c", "č",
   "dž", "š", "ŝ", "ʺ", "y", "ʹ", "è", "û", "â"]

/-- The two parallel arrays of toLatin paired positionally, as indexOf does. -/
def cyrillicToLatin : List (Char × String) :=
  cyrillicChars.zip latinStrings

/-- toLatin from the source (lines 355-366): map each character through the
table, characters absent from it pass through unchanged. -/
def toLatin (toTranslate : String) : String :=
  String.join (toTranslate.toList.map (fun c =>
    match cyrillicToLatin.find? (fun p => p.1 == c) with
    | some p => p.2
    | none => String.mk [c]))

/-- Unicode Script equals Latin codepoint ranges from Scripts.txt, the set
matched by the Latin script escape of the isLatin regex. -/
def latinScriptRanges : List (Nat × Nat) :=
  [(0x41, 0x5A), (0x61, 0x7A), (0xAA, 0xAA), (0xBA, 0xBA), (0xC0, 0xD6),
   (0xD8, 0xF6), (0xF8, 0x2B8), (0x2E0, 0x2E4), (0x1D00, 0x1D25),
   (0x1D2C, 0x1D5C), (0x1D62, 0x1D65), (0x1D6B, 0x1D77), (0x1D79, 0x1DBE),
   (0x1E00, 0x1EFF), (0x2071, 0x2071), (0x207F, 0x207F), (0x2090, 0x209C),
   (0x212A, 0x212B), (0x2132, 0x2132), (0x214E, 0x214E), (0x2160, 0x2188),
   (0x2C60, 0x2C7F), (0xA722, 0xA787), (0xA78B, 0xA7CA), (0xA7D0, 0xA7D1),
   (0xA7D3, 0xA7D3), (0xA7D5, 0xA7D9), (0xA7F2, 0xA7FF), (0xAB30, 0xAB5A),
   (0xAB5C, 0xAB64), (0xAB66, 0xAB69), (0xFB00, 0xFB06), (0xFF21, 0xFF3A),
   (0xFF41, 0xFF5A), (0x10780, 0x10785), (0x10787, 0x107B0),
   (0x107B2, 0x107BA), (0x1DF00, 0x1DF1E)]

/-- Membership in the Latin script. -/
def latinScript (c : Char) : Bool :=
  latinScriptRanges.any (fun p => decide (p.1 ≤ c.toNat) && decide (c.toNat ≤ p.2))

/-- The extra characters allowed by the isLatin character class besides the
Latin script: digits, space and a fixed punctuation list. The brace characters
and the backquote are built from their codepoints. -/
def isLatinExtraChars : List Char :=
  ['0', '1', '2', '3', '4', '5', '6', '7', '8', '9', ' ', '.', ',', '/', '#',
   '!', '$', '%', '^', '&', '*', ';', ':', Char.ofNat 0x7B, Char.ofNat 0x7D,
   '=', '-', '_', Char.ofNat 0x60, '~', '(', ')', '+', '?', '@']

/-- isLatin from the source (lines 351-354): no character falls outside the
Latin script plus the fixed allow-list. -/
def isLatin (title : String) : Bool :=
  title.toList.all (fun c => latinScript c || isLatinExtraChars.contains c)

/-- Query generation of searchMovie (source lines 75-82) as a function of the
title, original title and formatted release year: the title-year query, plus
the transliterated-original-year query whenever the transliteration is
Latin-representable. -/
def searchMovieQueries (title originalTitle year : String) : List String :=
  let queries := [title ++ " " ++ year]
  let translatedOriginal := toLatin originalTitle
  if isLatin translatedOriginal then queries ++ [translatedOriginal ++ " " ++ year]
  else queries

/-- Every character that occurs in some entry of the Latin side of the
transliteration table. -/
def latinOutputChars : List Char :=
  (latinStrings.map String.toList).flatten

/- Concrete fixtures used by the closed theorems below. -/

/-- A raw hit that fails the seeder-health filter: more peers than seeders. -/
def lowSeedRaw : JackettResult :=
  { Guid := "guid-low", Title := "Some Movie 1080p", Size := 10, Seeders := 1,
    Peers := 5, Link := some "http://x/a", MagnetUri := none,
    TrackerId := "trackerA", PublishDate := "2020-01-01" }

/-- A healthy raw hit on indexer trackerA. -/
def dupRawA : JackettResult :=
  { Guid := "guid-dup", Title := "Dup Movie 1080p", Size := 10, Seeders := 9,
    Peers := 1, Link := some "http://x/d", MagnetUri := none,
    TrackerId := "trackerA", PublishDate := "2020-01-01" }

/-- The same hit (same Guid) as reported by indexer trackerB. -/
def dupRawB : JackettResult :=
  { Guid := "guid-dup", Title := "Dup Movie 1080p", Size := 10, Seeders := 9,
    Peers := 1, Link := some "http://x/d", MagnetUri := none,
    TrackerId := "trackerB", PublishDate := "2020-01-01" }

/-- A formatted candidate on indexer trackerB with a matched tag. -/
def candA : SearchResult :=
  { normalizedTitle := "good movie 2160p", normalizedTitleParts := ["good", "movie", "2160p"],
    id := "guid-a", indexer := "trackerB", title := "Good Movie 2160p",
    quality := ⟨"2160p", 40⟩, size := 20, seeders := 30, peers := 2,
    link := "guid-a", downloadLink := "http://x/ga", tag := ⟨"grp", 5⟩,
    publishDate := "2020-01-02" }

/-- A formatted candidate on indexer trackerA, ranked below candA. -/
def candB : SearchResult :=
  { normalizedTitle := "good movie 1080p", normalizedTitleParts := ["good", "movie", "1080p"],
    id := "guid-b", indexer := "trackerA", title := "Good Movie 1080p",
    quality := ⟨"1080p", 30⟩, size := 9, seeders := 12, peers := 3,
    link := "guid-b", downloadLink := "http://x/gb", tag := ⟨"grp", 5⟩,
    publishDate := "2020-01-03" }

/-- C2: for every collection of normalized candidates the ranking sorts them in
descending lexicographic order by the 4-tuple of indexer identity, tag score,
quality score and seeders; the output is a permutation of the input; pairs
with equal keys keep their relative order, which is stability; and applying
the sort to an already-sorted list yields the same order, so the ranking is
deterministic and idempotent. -/
theorem ranking_sorted_stable_deterministic :
    (∀ l : List SearchResult, (sortedByBest l).Sorted rankGE) ∧
    (∀ l : List SearchResult, (sortedByBest l).Perm l) ∧
    (∀ (a b : SearchResult) (l : List SearchResult), rankKey a = rankKey b →
      List.Sublist [a, b] l → List.Sublist [a, b] (sortedByBest l)) ∧
    (∀ l : List SearchResult, l.Sorted rankGE → sortedByBest l = l) ∧
    (∀ l : List SearchResult, sortedByBest (sortedByBest l) = sortedByBest l) := by
  refine ⟨fun l => List.sorted_insertionSort rankGE l,
    fun l => List.perm_insertionSort rankGE l,
    fun a b l hk hsub => List.pair_sublist_insertionSort (le_of_eq hk.symm) hsub,
    fun l hl => hl.insertionSort_eq,
    fun l => (List.sorted_insertionSort rankGE l).insertionSort_eq⟩

/-- C2 witness: the sort components applied to concrete candidate lists. -/
theorem ranking_sorted_stable_deterministic_witness :
    sortedByBest [candA, candB] = [candA, candB] ∧
    List.Sublist [candB, candB] (sortedByBest [candB, candB, candA]) :=
  ⟨ranking_sorted_stable_deterministic.2.2.2.1 [candA, candB] (by decide),
   ranking_sorted_stable_deterministic.2.2.1 candB candB [candB, candB, candA]
     rfl (by decide)⟩

/-- C3: for a non-season, non-manual request a candidate is accepted by the
filter iff its size is strictly below the maximum acceptable size, its seeder
count is non-negative and strictly greater than its peer count, and its tag
score is strictly positive. -/
theorem nonseason_filter_iff (m : Int) (r : SearchResult) :
    resultFilter false false (some m) r = true ↔
      (r.size < m ∧ r.seeders ≥ 0 ∧ r.seeders > r.peers ∧ r.tag.score > 0) := by
  simp [resultFilter, and_assoc]

/-- C7: when every per-indexer task fails, search resolves to the empty list
when the aggregate failure carries the NO_RESULTS message in first position,
and otherwise propagates a failure carrying the first underlying per-task
error. -/
theorem aggregate_failure_policy (withoutFilter : Bool) (first : JSErr)
    (rest : List JSErr) :
    (first.message = "NO_RESULTS" →
      searchModel withoutFilter (.aggregateFailure first rest) = .ok []) ∧
    (first.message ≠ "NO_RESULTS" →
      searchModel withoutFilter (.aggregateFailure first rest) = .error first) := by
  constructor
  · intro h
    simp [searchModel, h]
  · intro h
    simp [searchModel, h]

/-- C7 witness: the two branches of the aggregate-failure policy at concrete
errors. -/
theorem aggregate_failure_policy_witness :
    searchModel false (.aggregateFailure ⟨"NO_RESULTS"⟩ []) = .ok [] ∧
    searchModel false (.aggregateFailure ⟨"ECONNREFUSED"⟩ [⟨"oops"⟩]) =
      .error ⟨"ECONNREFUSED"⟩ :=
  ⟨(aggregate_failure_policy false ⟨"NO_RESULTS"⟩ []).1 rfl,
   (aggregate_failure_policy false ⟨"ECONNREFUSED"⟩ [⟨"oops"⟩]).2 (by decide)⟩

/-- C8 counterexample: with title Alien, original title Alien and year 1979 the
transliterated original title equals the title, so the claimed condition
requires the original-title query to be absent, yet the generated query list
contains it, twice. -/
theorem movie_query_iff_counterexample :
    searchMovieQueries "Alien" "Alien" "1979" = ["Alien 1979", "Alien 1979"] ∧
    (toLatin "Alien" ++ " " ++ "1979") ∈ searchMovieQueries "Alien" "Alien" "1979" ∧
    toLatin "Alien" = "Alien" := by
  refine ⟨by decide, by decide, by decide⟩

/-- C8 amended: the movie query list always contains the title-year query, and
additionally appends the transliterated-original-title query exactly when the
transliteration is Latin-representable, with no comparison against the title,
so the two entries coincide when the transliterated original equals the
title. -/
theorem movie_query_amended (title originalTitle year : String) :
    (title ++ " " ++ year) ∈ searchMovieQueries title originalTitle year ∧
    searchMovieQueries title originalTitle year =
      (if isLatin (toLatin originalTitle)
       then [title ++ " " ++ year, toLatin originalTitle ++ " " ++ year]
       else [title ++ " " ++ year]) := by
  constructor
  · by_cases h : isLatin (toLatin originalTitle) <;> simp [searchMovieQueries, h]
  · by_cases h : isLatin (toLatin originalTitle) <;> simp [searchMovieQueries, h]

/-- C1 counterexample: in an automated (non-manual) search where the only raw
hit is rejected by the acceptance filter, search returns the one-element list
containing the undefined value produced by indexing the empty sorted array,
not the empty list claimed. -/
theorem search_automated_no_candidates_counterexample :
    searchIndexerResults [[lowSeedRaw]] [] [] (some 100) false false = [] ∧
    searchModel false
        (.resolved [some (searchIndexerResults [[lowSeedRaw]] [] [] (some 100) false false)]) =
      .ok [none] ∧
    ([none] : List (Option SearchResult)) ≠ [] := by
  refine ⟨rfl, rfl, by simp⟩

/-- C1 amended: manual mode returns the entire ranked list; automated mode
returns the one-element list holding the head of the ranked list, which is a
top-ranked candidate of the collected set when any candidate passed the
filter, and which is the undefined value rather than the empty list when none
did. -/
theorem search_selection_amended :
    (∀ resolved : List (Option (List SearchResult)),
      searchSelect true resolved = (sortedByBest (flattenResolved resolved)).map some) ∧
    (∀ resolved : List (Option (List SearchResult)),
      searchSelect false resolved = [(sortedByBest (flattenResolved resolved)).head?]) ∧
    (∀ (resolved : List (Option (List SearchResult))) (c : SearchResult),
      (sortedByBest (flattenResolved resolved)).head? = some c →
      c ∈ flattenResolved resolved ∧ ∀ d ∈ flattenResolved resolved, rankGE c d) ∧
    (∀ resolved : List (Option (List SearchResult)),
      flattenResolved resolved = [] → searchSelect false resolved = [none]) := by
  refine ⟨fun resolved => rfl, fun resolved => rfl, ?_, ?_⟩
  · intro resolved c hc
    cases hs : sortedByBest (flattenResolved resolved) with
    | nil => rw [hs] at hc; simp at hc
    | cons a t =>
      rw [hs] at hc
      simp only [List.head?_cons, Option.some.injEq] at hc
      subst hc
      have hsorted : List.Sorted rankGE (a :: t) := by
        rw [← hs]; exact List.sorted_insertionSort rankGE _
      have hperm := List.perm_insertionSort rankGE (flattenResolved resolved)
      constructor
      · exact hperm.mem_iff.mp (by rw [sortedByBest] at hs; rw [hs]; exact List.mem_cons_self a t)
      · intro d hd
        have hd2 : d ∈ a :: t := by
          rw [← hs, sortedByBest]
          exact hperm.mem_iff.mpr hd
        rcases List.mem_cons.mp hd2 with he | ht
        · subst he; exact le_refl _
        · exact List.rel_of_sorted_cons hsorted d ht
  · intro resolved h
    simp [searchSelect, sortedByBest, h]

/-- C1 amended witness: the selection components applied to a concrete
resolved fan-out with one undefined slot and two candidates. -/
theorem search_selection_amended_witness :
    candA ∈ flattenResolved [some [candB], some [candA], none] ∧ rankGE candA candB :=
  have h := search_selection_amended.2.2.1 [some [candB], some [candA], none] candA rfl
  ⟨h.1, h.2 candB (by decide)⟩

/-- A season-search candidate carrying a single-episode marker token. -/
def episodeCand : SearchResult :=
  { normalizedTitle := "show s02 e05 1080p",
    normalizedTitleParts := ["show", "s02", "e05", "1080p"],
    id := "guid-e05", indexer := "trackerA", title := "show s02 e05 1080p",
    quality := ⟨"1080p", 30⟩, size := 10, seeders := 9, peers := 1,
    link := "guid-e05", downloadLink := "http://x/e05", tag := ⟨"unknown", 1⟩,
    publishDate := "" }

/-- A season-pack candidate whose title carries a double episode-number run. -/
def seasonPackCand : SearchResult :=
  { normalizedTitle := "show s02 e01e10 1080p",
    normalizedTitleParts := ["show", "s02", "e01e10", "1080p"],
    id := "guid-pack", indexer := "trackerA", title := "show s02 e01e10 1080p",
    quality := ⟨"1080p", 30⟩, size := 10, seeders := 9, peers := 1,
    link := "guid-pack", downloadLink := "http://x/pack", tag := ⟨"unknown", 1⟩,
    publishDate := "" }

/-- C4: in a season-level, non-manual search a candidate with an
episode-indicator token is rejected when its title has no double
episode-number run; when the double pattern is present the episode heuristic
does not fire and the candidate is accepted whenever size and seeder checks
pass; in particular the candidate with tokens show s02 e05 1080p is rejected
and the one with tokens show s02 e01e10 1080p is accepted. -/
theorem season_filter_episode_heuristic :
    (∀ (maxSize : Option Int) (r : SearchResult),
      (∃ p ∈ r.normalizedTitleParts, matchesEpisodeIndicator p = true) →
      matchesDoubleEpisode r.normalizedTitle = false →
      resultFilter false true maxSize r = false) ∧
    (∀ (m : Int) (r : SearchResult),
      matchesDoubleEpisode r.normalizedTitle = true →
      r.size < m → r.seeders ≥ 0 → r.seeders > r.peers →
      resultFilter false true (some m) r = true) ∧
    resultFilter false true (some 100) episodeCand = false ∧
    resultFilter false true (some 100) seasonPackCand = true := by
  refine ⟨?_, ?_, by decide, by decide⟩
  · rintro maxSize r ⟨p, hp, hip⟩ hd
    have hEp : r.normalizedTitleParts.any (fun titlePart =>
        matchesEpisodeIndicator titlePart &&
          !(matchesDoubleEpisode r.normalizedTitle)) = true := by
      rw [List.any_eq_true]
      exact ⟨p, hp, by rw [hip, hd]; rfl⟩
    simp [resultFilter, hEp]
  · intro m r hd hsize hs0 hsp
    have hEp : r.normalizedTitleParts.any (fun titlePart =>
        matchesEpisodeIndicator titlePart &&
          !(matchesDoubleEpisode r.normalizedTitle)) = false := by
      simp [hd]
    simp [resultFilter, hEp, hsize, hs0, hsp]

/-- C4 witness: the two general branches applied to the concrete episode and
season-pack candidates. -/
theorem season_filter_episode_heuristic_witness :
    resultFilter false true (some 90) episodeCand = false ∧
    resultFilter false true (some 50) seasonPackCand = true :=
  ⟨season_filter_episode_heuristic.1 (some 90) episodeCand (by decide) (by decide),
   season_filter_episode_heuristic.2.1 50 seasonPackCand (by decide) (by decide)
     (by decide) (by decide)⟩

/-- find? on an append whose left part all fails the predicate returns the
first success of the right part. -/
theorem find?_append_first {α : Type} (p : α → Bool) (pre post : List α) (a : α)
    (hpre : ∀ x ∈ pre, p x = false) (ha : p a = true) :
    (pre ++ a :: post).find? p = some a := by
  induction pre with
  | nil =>
    simp only [List.nil_append]
    exact List.find?_cons_of_pos post ha
  | cons x xs ih =>
    have hx := hpre x (List.mem_cons_self x xs)
    rw [List.cons_append, List.find?_cons_of_neg _ (by simp [hx])]
    exact ih (fun y hy => hpre y (List.mem_cons_of_mem x hy))

/-- C5: candidate token lists never contain the empty token; on token lists,
matchTag returns score 1 when the tag-rule list is empty, returns label
unknown with score 0 when the rule list is non-empty and no token equals any
lowercased rule name, and otherwise returns the name and score of the first
rule in list order whose lowercased name occurs as an exact non-empty
token. -/
theorem matchTag_spec :
    (∀ (qp : List Quality) (pt : List Tag) (raw : JackettResult),
      "" ∉ (formatSearchResult qp pt raw).normalizedTitleParts) ∧
    (∀ parts : List String, parseTag parts [] = ⟨"unknown", 1⟩) ∧
    (∀ (parts : List String) (rules : List Tag), rules ≠ [] →
      (∀ t ∈ rules, jsToLower t.name ∉ parts) →
      parseTag parts rules = ⟨"unknown", 0⟩) ∧
    (∀ (parts : List String) (pre post : List Tag) (t : Tag), "" ∉ parts →
      (∀ t1 ∈ pre, jsToLower t1.name ∉ parts) →
      jsToLower t.name ∈ parts →
      parseTag parts (pre ++ t :: post) = ⟨t.name, t.score⟩) := by
  refine ⟨?_, fun parts => rfl, ?_, ?_⟩
  · intro qp pt raw h
    have h2 : "" ∈ splitParts (sanitize raw.Title) := h
    have h3 := List.of_mem_filter h2
    simp at h3
  · intro parts rules hne hnm
    have hfind : rules.find? (fun tag =>
        jsStrTruthy (parts.find? (fun part => part == jsToLower tag.name))) = none := by
      rw [List.find?_eq_none]
      intro t ht
      cases hf : parts.find? (fun part => part == jsToLower t.name) with
      | none => simp [jsStrTruthy, hf]
      | some p =>
        have h1 : p = jsToLower t.name := by simpa using List.find?_some hf
        have h2 := List.mem_of_find?_eq_some hf
        rw [h1] at h2
        exact absurd h2 (hnm t ht)
    simp only [parseTag, hfind]
    rw [if_pos (List.length_pos.mpr hne)]
  · intro parts pre post t hemp hpre hmem
    have hx : jsToLower t.name ≠ "" := fun h => hemp (h ▸ hmem)
    have hpredt : jsStrTruthy (parts.find? (fun part => part == jsToLower t.name)) = true := by
      cases hf : parts.find? (fun part => part == jsToLower t.name) with
      | none =>
        rw [List.find?_eq_none] at hf
        exact absurd (by simp : (jsToLower t.name == jsToLower t.name) = true)
          (by simpa using hf _ hmem)
      | some p =>
        have h1 : p = jsToLower t.name := by simpa using List.find?_some hf
        simp [jsStrTruthy, h1, hx]
    have hprefalse : ∀ x ∈ pre, (fun tag =>
        jsStrTruthy (parts.find? (fun part => part == jsToLower tag.name))) x = false := by
      intro x hxp
      cases hf : parts.find? (fun part => part == jsToLower x.name) with
      | none => simp [jsStrTruthy, hf]
      | some p =>
        have h1 : p = jsToLower x.name := by simpa using List.find?_some hf
        have h2 := List.mem_of_find?_eq_some hf
        rw [h1] at h2
        exact absurd h2 (hpre x hxp)
    simp only [parseTag, find?_append_first _ pre post t hprefalse hpredt]

/-- C5 witness: matchTag at concrete token lists and rule lists, exercising
the first-match and the no-match branches. -/
theorem matchTag_spec_witness :
    parseTag ["good", "movie", "grp"] [⟨"XX", 9⟩, ⟨"GRP", 5⟩] = ⟨"GRP", 5⟩ ∧
    parseTag ["good", "movie"] [⟨"XX", 9⟩] = ⟨"unknown", 0⟩ :=
  ⟨matchTag_spec.2.2.2 ["good", "movie", "grp"] [⟨"XX", 9⟩] [] ⟨"GRP", 5⟩
     (by decide) (by decide) (by decide),
   matchTag_spec.2.2.1 ["good", "movie"] [⟨"XX", 9⟩] (by decide) (by decide)⟩

/-- The dedup worker emits a subsequence of its input. -/
theorem uniqByGuid_go_sublist (seen : List String) :
    ∀ l : List JackettResult, List.Sublist (uniqByGuid.go seen l) l
  | [] => by simp [uniqByGuid.go]
  | r :: rs => by
    simp only [uniqByGuid.go]
    split
    · exact (uniqByGuid_go_sublist seen rs).cons r
    · exact (uniqByGuid_go_sublist (r.Guid :: seen) rs).cons₂ r

/-- Elements emitted by the dedup worker carry Guids outside seen. -/
theorem uniqByGuid_go_guid_notin_seen (seen : List String) :
    ∀ l : List JackettResult, ∀ r ∈ uniqByGuid.go seen l, r.Guid ∉ seen
  | [] => by simp [uniqByGuid.go]
  | x :: xs => by
    intro r hr
    simp only [uniqByGuid.go] at hr
    split at hr
    · exact uniqByGuid_go_guid_notin_seen seen xs r hr
    · rcases List.mem_cons.mp hr with he | ht
      · subst he
        assumption
      · have := uniqByGuid_go_guid_notin_seen (x.Guid :: seen) xs r ht
        exact fun hsn => this (List.mem_cons_of_mem _ hsn)

/-- The dedup worker emits pairwise-distinct Guids. -/
theorem uniqByGuid_go_pairwise (seen : List String) :
    ∀ l : List JackettResult,
      (uniqByGuid.go seen l).Pairwise (fun a b => a.Guid ≠ b.Guid)
  | [] => by simp [uniqByGuid.go]
  | x :: xs => by
    simp only [uniqByGuid.go]
    split
    · exact uniqByGuid_go_pairwise seen xs
    · refine List.Pairwise.cons ?_ (uniqByGuid_go_pairwise (x.Guid :: seen) xs)
      intro b hb he
      have := uniqByGuid_go_guid_notin_seen (x.Guid :: seen) xs b hb
      exact this (he ▸ List.mem_cons_self _ _)

/-- On an input with pairwise-distinct Guids that avoid seen, the dedup worker
is the identity. -/
theorem uniqByGuid_go_eq_self (seen : List String) :
    ∀ l : List JackettResult, l.Pairwise (fun a b => a.Guid ≠ b.Guid) →
      (∀ r ∈ l, r.Guid ∉ seen) → uniqByGuid.go seen l = l
  | [] => by simp [uniqByGuid.go]
  | x :: xs => by
    intro hp hs
    simp only [uniqByGuid.go]
    rw [if_neg (hs x (List.mem_cons_self x xs))]
    congr 1
    refine uniqByGuid_go_eq_self (x.Guid :: seen) xs (List.pairwise_cons.mp hp).2 ?_
    intro r hr hmem
    rcases List.mem_cons.mp hmem with he | hsn
    · exact (List.pairwise_cons.mp hp).1 r hr he.symm
    · exact hs r (List.mem_cons_of_mem x hr) hsn

/-- The dedup worker retains a representative of every input Guid unless that
Guid was already seen. -/
theorem uniqByGuid_go_covers (seen : List String) :
    ∀ l : List JackettResult, ∀ r ∈ l, r.Guid ∈ seen ∨
      (uniqByGuid.go seen l).any (fun r1 => r1.Guid == r.Guid) = true
  | [] => by simp
  | x :: xs => by
    intro r hr
    simp only [uniqByGuid.go]
    rcases List.mem_cons.mp hr with he | hxs
    · subst he
      by_cases hx : r.Guid ∈ seen
      · exact .inl hx
      · right
        rw [if_neg hx, List.any_cons]
        simp
    · by_cases hx : x.Guid ∈ seen
      · rw [if_pos hx]
        exact uniqByGuid_go_covers seen xs r hxs
      · rw [if_neg hx]
        rcases uniqByGuid_go_covers (x.Guid :: seen) xs r hxs with hin | hany
        · rcases List.mem_cons.mp hin with h | h
          · right
            rw [List.any_cons]
            simp [h]
          · exact .inl h
        · right
          rw [List.any_cons, hany]
          simp

/-- Every element emitted by the dedup worker is the first element of the
input carrying its Guid: find? on the input by that Guid returns the emitted
element itself. -/
theorem uniqByGuid_go_first (seen : List String) :
    ∀ l : List JackettResult, ∀ r ∈ uniqByGuid.go seen l,
      l.find? (fun x => x.Guid == r.Guid) = some r
  | [] => by simp [uniqByGuid.go]
  | x :: xs => by
    intro r hr
    simp only [uniqByGuid.go] at hr
    split at hr
    · rename_i hx
      have hne : x.Guid ≠ r.Guid := by
        intro he
        exact uniqByGuid_go_guid_notin_seen seen xs r hr (he ▸ hx)
      rw [List.find?_cons_of_neg _ (by simp [hne])]
      exact uniqByGuid_go_first seen xs r hr
    · rename_i hx
      rcases List.mem_cons.mp hr with he | ht
      · subst he
        exact List.find?_cons_of_pos _ (by simp)
      · have hnotin := uniqByGuid_go_guid_notin_seen (x.Guid :: seen) xs r ht
        have hne : x.Guid ≠ r.Guid := fun he => hnotin (he ▸ List.mem_cons_self _ _)
        rw [List.find?_cons_of_neg _ (by simp [hne])]
        exact uniqByGuid_go_first (x.Guid :: seen) xs r ht

/-- C6 counterexample: deduplication runs per indexer only; a manual-mode
search over two indexers that both report a hit with the same Guid returns a
result set in which that identifier occurs twice, on two distinct entries. -/
theorem dedup_per_search_counterexample :
    searchModel true (.resolved
        [some (searchIndexerResults [[dupRawA]] [] [] none false true),
         some (searchIndexerResults [[dupRawB]] [] [] none false true)]) =
      .ok [some (formatSearchResult [] [] dupRawB),
           some (formatSearchResult [] [] dupRawA)] ∧
    (formatSearchResult [] [] dupRawB).id = (formatSearchResult [] [] dupRawA).id ∧
    formatSearchResult [] [] dupRawB ≠ formatSearchResult [] [] dupRawA := by
  refine ⟨rfl, rfl, by decide⟩

/-- C6 amended: within one indexer search, deduplication by identifier yields
pairwise-distinct Guids, is idempotent, returns a subsequence of the input,
and keeps exactly the first occurrence of each Guid: the Guid of every input
element has a representative in the output, and every output element is the
first input element carrying its Guid under find?, so the dropped duplicates
are precisely the later ones; consequently every searchIndexer result list
has pairwise distinct candidate identifiers. Uniqueness does not extend
across indexers within one search. -/
theorem dedup_per_indexer_amended :
    (∀ l : List JackettResult,
      (uniqByGuid l).Pairwise (fun a b => a.Guid ≠ b.Guid)) ∧
    (∀ l : List JackettResult, uniqByGuid (uniqByGuid l) = uniqByGuid l) ∧
    (∀ l : List JackettResult, List.Sublist (uniqByGuid l) l) ∧
    (∀ (l : List JackettResult), ∀ r ∈ l,
      (uniqByGuid l).any (fun r1 => r1.Guid == r.Guid) = true) ∧
    (∀ (l : List JackettResult), ∀ r ∈ uniqByGuid l,
      l.find? (fun x => x.Guid == r.Guid) = some r) ∧
    (∀ (rawResults : List (List JackettResult)) (qp : List Quality)
        (pt : List Tag) (ms : Option Int) (se wf : Bool),
      (searchIndexerResults rawResults qp pt ms se wf).Pairwise
        (fun a b => a.id ≠ b.id)) := by
  refine ⟨fun l => uniqByGuid_go_pairwise [] l, ?_, fun l => uniqByGuid_go_sublist [] l,
    ?_, fun l r hr => uniqByGuid_go_first [] l r hr, ?_⟩
  · intro l
    exact uniqByGuid_go_eq_self [] (uniqByGuid l) (uniqByGuid_go_pairwise [] l)
      (fun r _ => List.not_mem_nil r.Guid)
  · intro l r hr
    rcases uniqByGuid_go_covers [] l r hr with h | h
    · exact absurd h (List.not_mem_nil _)
    · exact h
  · intro rawResults qp pt ms se wf
    have h1 := uniqByGuid_go_pairwise [] rawResults.flatten
    have h2 : ((uniqByGuid rawResults.flatten).filter
        (fun result => jsStrTruthy result.Link || jsStrTruthy result.MagnetUri)).Pairwise
        (fun a b => a.Guid ≠ b.Guid) := h1.sublist (List.filter_sublist _)
    have h3 : (((uniqByGuid rawResults.flatten).filter
        (fun result => jsStrTruthy result.Link || jsStrTruthy result.MagnetUri)).map
        (formatSearchResult qp pt)).Pairwise (fun a b => a.id ≠ b.id) := by
      rw [List.pairwise_map]
      exact h2
    exact h3.sublist (List.filter_sublist _)

/-- C6 amended witness: on the concrete duplicated list the dropped Guid is
still represented, and the surviving element is the first occurrence, the
trackerA hit, under find? on the input. -/
theorem dedup_per_indexer_amended_witness :
    (uniqByGuid [dupRawA, dupRawB]).any (fun r1 => r1.Guid == dupRawB.Guid) = true ∧
    [dupRawA, dupRawB].find? (fun x => x.Guid == dupRawA.Guid) = some dupRawA :=
  ⟨dedup_per_indexer_amended.2.2.2.1 [dupRawA, dupRawB] dupRawB (by decide),
   dedup_per_indexer_amended.2.2.2.2.1 [dupRawA, dupRawB] dupRawA (by decide)⟩

/-- Folding append over singleton strings rebuilds the character list after
the accumulator. -/
theorem foldl_append_singletons :
    ∀ (cs : List Char) (acc : String),
      List.foldl (· ++ ·) acc (cs.map (fun c => String.mk [c])) = String.mk (acc.data ++ cs)
  | [], acc => by
    cases acc
    simp
  | c :: cs, acc => by
    simp only [List.map_cons, List.foldl_cons]
    rw [foldl_append_singletons cs (acc ++ String.mk [c])]
    congr 1
    simp

/-- Joining the singleton strings of a character list gives the string over
that list. -/
theorem join_singletons (cs : List Char) :
    String.join (cs.map (fun c => String.mk [c])) = String.mk cs := by
  have h := foldl_append_singletons cs ""
  simpa [String.join] using h

/-- C9 counterexample: the transliteration output for the Cyrillic hard sign
is the modifier letter U+02BA, a character drawn from the Latin side of the
table, yet isLatin rejects it: the modifier letters U+02B9 and U+02BA are not
in the Latin script and are outside the allow-list. -/
theorem isLatin_output_chars_counterexample :
    toLatin "Ъ" = String.mk [Char.ofNat 0x2BA] ∧
    (String.mk [Char.ofNat 0x2BA]).toList.all
      (fun c => latinOutputChars.contains c) = true ∧
    isLatin (String.mk [Char.ofNat 0x2BA]) = false := by
  refine ⟨by decide, by decide, by decide⟩

/-- C9 amended: transliterate is the identity on every string containing no
character of the Cyrillic table, and isLatin returns true for every string
composed only of Latin output characters of the table other than the two
modifier letters U+02BA and U+02B9 produced for the hard and soft signs,
which it rejects. -/
theorem transliteration_amended :
    (∀ s : String, (∀ c ∈ s.toList, c ∉ cyrillicChars) → toLatin s = s) ∧
    (∀ s : String,
      (∀ c ∈ s.toList,
        c ∈ latinOutputChars ∧ c ≠ Char.ofNat 0x2BA ∧ c ≠ Char.ofNat 0x2B9) →
      isLatin s = true) := by
  constructor
  · intro s h
    simp only [toLatin]
    have hcong : s.toList.map (fun c =>
        match cyrillicToLatin.find? (fun p => p.1 == c) with
        | some p => p.2
        | none => String.mk [c]) = s.toList.map (fun c => String.mk [c]) := by
      apply List.map_congr_left
      intro c hc
      have hfind : cyrillicToLatin.find? (fun p => p.1 == c) = none := by
        rw [List.find?_eq_none]
        intro p hp hbeq
        have h1 : p.1 ∈ cyrillicChars := (List.of_mem_zip hp).1
        have h2 : p.1 = c := by simpa using hbeq
        exact h c hc (h2 ▸ h1)
      rw [hfind]
    rw [hcong, join_singletons]
    cases s
    rfl
  · intro s h
    rw [isLatin, List.all_eq_true]
    intro c hc
    rcases h c hc with ⟨hmem, hne1, hne2⟩
    have hall : latinOutputChars.all (fun c =>
        c == Char.ofNat 0x2BA || c == Char.ofNat 0x2B9 ||
        (latinScript c || isLatinExtraChars.contains c)) = true := by decide
    rw [List.all_eq_true] at hall
    have h3 := hall c hmem
    simp only [Bool.or_eq_true, beq_iff_eq] at h3
    rcases h3 with (h3 | h3) | h3
    · exact absurd h3 hne1
    · exact absurd h3 hne2
    · rw [Bool.or_eq_true]
      exact h3

/-- C9 amended witness: identity transliteration of a Latin title and
acceptance of a string built from ordinary Latin output characters. -/
theorem transliteration_amended_witness :
    toLatin "Silo" = "Silo" ∧ isLatin "Ljulja" = true :=
  ⟨transliteration_amended.1 "Silo" (by decide),
   transliteration_amended.2 "Ljulja" (by decide)⟩

/-- C10: every candidate produced by searchIndexer, in every mode, has a
non-empty download link equal to the magnet URI of some link-bearing raw hit
of the same search when that is truthy and to its direct link otherwise;
raw hits with neither a truthy link nor a truthy magnet URI never reach the
output. -/
theorem downloadLink_magnet_or_link
    (rawResults : List (List JackettResult)) (qp : List Quality) (pt : List Tag)
    (ms : Option Int) (se wf : Bool) (c : SearchResult)
    (hc : c ∈ searchIndexerResults rawResults qp pt ms se wf) :
    c.downloadLink ≠ "" ∧
    rawResults.flatten.any (fun r =>
      (jsStrTruthy r.Link || jsStrTruthy r.MagnetUri) &&
      (c.downloadLink ==
        (if jsStrTruthy r.MagnetUri then r.MagnetUri.getD ""
         else r.Link.getD ""))) = true := by
  have h1 := List.mem_of_mem_filter hc
  rcases List.mem_map.mp h1 with ⟨r, hr, hfmt⟩
  have hlink : (jsStrTruthy r.Link || jsStrTruthy r.MagnetUri) = true := by
    simpa using List.of_mem_filter hr
  have hrmem : r ∈ rawResults.flatten :=
    (uniqByGuid_go_sublist [] rawResults.flatten).subset (List.mem_of_mem_filter hr)
  subst hfmt
  have hdl : (formatSearchResult qp pt r).downloadLink =
      (if jsStrTruthy r.MagnetUri then r.MagnetUri.getD ""
       else r.Link.getD "") := rfl
  constructor
  · rw [hdl]
    by_cases hM : jsStrTruthy r.MagnetUri = true
    · rw [if_pos hM]
      cases hm2 : r.MagnetUri with
      | none => rw [hm2] at hM; simp [jsStrTruthy] at hM
      | some v =>
        rw [hm2] at hM
        simp only [jsStrTruthy] at hM
        simpa using hM
    · rw [if_neg hM]
      have hL : jsStrTruthy r.Link = true := by
        rcases Bool.or_eq_true .. |>.mp hlink with h | h
        · exact h
        · exact absurd h hM
      cases hl2 : r.Link with
      | none => rw [hl2] at hL; simp [jsStrTruthy] at hL
      | some v =>
        rw [hl2] at hL
        simp only [jsStrTruthy] at hL
        simpa using hL
  · rw [List.any_eq_true]
    refine ⟨r, hrmem, ?_⟩
    rw [Bool.and_eq_true]
    exact ⟨hlink, by simp [hdl]⟩

/-- C10 witness: the download-link property at a concrete manual-mode search
with one link-bearing hit. -/
theorem downloadLink_magnet_or_link_witness :
    (formatSearchResult [] [] dupRawA).downloadLink ≠ "" ∧
    [[dupRawA]].flatten.any (fun r =>
      (jsStrTruthy r.Link || jsStrTruthy r.MagnetUri) &&
      ((formatSearchResult [] [] dupRawA).downloadLink ==
        (if jsStrTruthy r.MagnetUri then r.MagnetUri.getD ""
         else r.Link.getD ""))) = true :=
  downloadLink_magnet_or_link [[dupRawA]] [] [] none false true
    (formatSearchResult [] [] dupRawA) (by decide)
